import Mathlib

/-!
Verification of the leaderboard aggregation engine and team-cache
synchronization of `src/main.py` (a Discord sales bot backed by Google
Sheets), via a shallow embedding of its data-processing functions.

Modelling conventions:
* Timestamps are integers counting minutes since the Unix epoch
  (1970-01-01 00:00 UTC, a Thursday).  `pandas.Timestamp.normalize`
  becomes flooring to a multiple of 1440; `Timestamp.weekday`
  (Monday = 0) and `replace(day=1)` are computed with genuine
  proleptic-Gregorian day arithmetic.
* A spreadsheet cell, as seen by `pd.DataFrame(records)` followed by
  `to_datetime`/`to_numeric` with `errors="coerce"`, is `Cell α`:
  `absent` (the key is missing from the record dict, so the cell is NaN),
  `bad` (present but unparseable, so NaT/NaN after coercion), or `val a`.
  A column is present in the DataFrame iff some record has its key.
* Premium amounts are integers (cents); monetary values in the sheet
  have two decimals.
* `DataFrame.groupby(..., sort=True)` emits one row per distinct key,
  ordered ascending by key (tuples lexicographically, as pandas does);
  rows whose group key is NaN are dropped (`dropna=True` default).
* `DataFrame.sort_values(col, ascending=False)` is modelled as a STABLE
  descending sort: pandas `nargsort` reverses both the values and the
  indices before the ascending `argsort` and reverses the resulting
  indexer afterwards, so the two reversals cancel on ties and tied rows
  keep their original relative order (numpy's default sort is insertion
  sort, hence stable, on the small arrays a leaderboard produces).
* Functions whose Python counterpart can raise (`KeyError` from a missing
  column) return `Except String`.
-/

namespace DGBot

/-- One cell of a raw record, after pandas coercion semantics are taken
into account: `absent` = the key was missing from the row dict (NaN),
`bad` = present but not parseable (NaT/NaN after `errors="coerce"`),
`val a` = parses to `a`. -/
inductive Cell (α : Type) where
  | absent : Cell α
  | bad : Cell α
  | val : α → Cell α
deriving DecidableEq, Repr

/-- The coerced value of a cell: `absent` and `bad` are both NaN. -/
def Cell.toOption {α : Type} : Cell α → Option α
  | .absent => none
  | .bad => none
  | .val a => some a

/-- `astype(str)` on a string column: NaN cells stringify to "nan". -/
def Cell.toStr : Cell String → String
  | .absent => "nan"
  | .bad => "nan"
  | .val s => s

/-- A raw row of the sales worksheet, as a record dict passed to
`pd.DataFrame`.  Fields model the columns `Date`, `User ID`, `Name`,
`Premium`, `Team`. -/
structure RawRecord where
  date : Cell Int
  userId : Cell String
  name : Cell String
  premium : Cell Int
  team : Cell String
deriving DecidableEq, Repr

/-- A column is present in `pd.DataFrame(records)` iff at least one
record dict has its key. -/
def colPresent (f : RawRecord → Bool) (records : List RawRecord) : Bool :=
  records.any f

def RawRecord.hasDate (r : RawRecord) : Bool := r.date ≠ Cell.absent
def RawRecord.hasUserId (r : RawRecord) : Bool := r.userId ≠ Cell.absent
def RawRecord.hasName (r : RawRecord) : Bool := r.name ≠ Cell.absent
def RawRecord.hasPremium (r : RawRecord) : Bool := r.premium ≠ Cell.absent
def RawRecord.hasTeam (r : RawRecord) : Bool := r.team ≠ Cell.absent

/-! ## Time windows

`now = pd.Timestamp.now(tz="UTC").tz_convert(None)` is an explicit
parameter of the embedding, in minutes since the epoch. -/

/-- Minutes in a day. -/
def minutesPerDay : Int := 1440

/-- `Timestamp.normalize()`: floor to midnight. -/
def dayFloor (t : Int) : Int := (t.fdiv minutesPerDay) * minutesPerDay

/-- `Timestamp.weekday()`, Monday = 0.  1970-01-01 was a Thursday
(weekday 3). -/
def weekdayOf (t : Int) : Int := (t.fdiv minutesPerDay + 3) % 7

/-- `(now - pd.Timedelta(days=now.weekday())).normalize()`. -/
def weekStart (now : Int) : Int := dayFloor (now - weekdayOf now * minutesPerDay)

/-- Day of month (1-based) of an epoch-day index, by the standard
civil-from-days computation for the proleptic Gregorian calendar. -/
def dayOfMonth (z : Int) : Int :=
  let zs := z + 719468
  let era := zs.fdiv 146097
  let doe := (zs - era * 146097).toNat
  let yoe := (doe - doe / 1460 + doe / 36524 - doe / 146096) / 365
  let doy := doe - (365 * yoe + yoe / 4 - yoe / 100)
  let mp := (5 * doy + 2) / 153
  ((doy - (153 * mp + 2) / 5 + 1 : Nat) : Int)

/-- `now.replace(day=1).normalize()`: midnight of the first of `now`'s
month. -/
def monthStart (now : Int) : Int :=
  (now.fdiv minutesPerDay - (dayOfMonth (now.fdiv minutesPerDay) - 1)) * minutesPerDay

/-- The inclusive lower bound of the selected period, `none` meaning no
filtering (the `else` branch of the period dispatch). -/
def startDateOf (period : String) (now : Int) : Option Int :=
  if period = "today" then some (dayFloor now)
  else if period = "week" then some (weekStart now)
  else if period = "month" then some (monthStart now)
  else none

/-! ## Individual leaderboard: `process_leaderboard_data` -/

/-- A row surviving the coercions, `dropna(subset=["Date", "Premium",
"User ID"])` and the `User ID != ""` filter of
`process_leaderboard_data`.  `User ID` has been `astype(str)`-ed
(NaN → "nan"), so only `Date`/`Premium` NaN drop a row; `Name` keeps its
possibly-NaN cell for the later groupby. -/
structure CleanRow where
  date : Int
  userId : String
  name : Cell String
  premium : Int
deriving DecidableEq, Repr

/-- Coercion + `dropna` + empty-`User ID` filter of
`process_leaderboard_data` (lines 100-104 of `src/main.py`). -/
def cleanIndiv (records : List RawRecord) : List CleanRow :=
  records.filterMap fun r =>
    match r.date.toOption, r.premium.toOption with
    | some d, some p =>
        if r.userId.toStr = "" then none
        else some ⟨d, r.userId.toStr, r.name, p⟩
    | _, _ => none

/-- The period filter `df[df["Date"] >= start_date]` (or no filter for
any other period string). -/
def filteredIndiv (records : List RawRecord) (period : String) (now : Int) :
    List CleanRow :=
  match startDateOf period now with
  | some s => (cleanIndiv records).filter fun c => s ≤ c.date
  | none => cleanIndiv records

/-- First-occurrence deduplication (Python dict-key insertion order for
the distinct-keys part of a groupby). -/
def dedupFirst {α : Type} [DecidableEq α] : List α → List α
  | [] => []
  | a :: l => a :: (dedupFirst l).filter (· ≠ a)

/-- The group key of `groupby(["User ID", "Name"])`; rows whose `Name`
is NaN carry no key and are dropped by the groupby (`dropna=True`). -/
def keyOfRow (c : CleanRow) : Option (String × String) :=
  match c.name with
  | .val s => some (c.userId, s)
  | _ => none

/-- Python string comparison: lexicographic on code points, a proper
prefix preceding its extensions. -/
def charListLt : List Char → List Char → Bool
  | [], [] => false
  | [], _ :: _ => true
  | _ :: _, [] => false
  | a :: as, b :: bs => if a < b then true else if b < a then false else charListLt as bs

/-- `a < b` on Python strings. -/
def strLtB (a b : String) : Bool := charListLt a.data b.data

/-- Python ordering on `(User ID, Name)` tuples: lexicographic with
string comparison. -/
def keyLe (a b : String × String) : Prop :=
  strLtB a.1 b.1 = true ∨ (a.1 = b.1 ∧ strLtB b.2 a.2 = false)

instance : DecidableRel keyLe := fun a b => by
  unfold keyLe; infer_instance

/-- The distinct group keys, ascending (`groupby(..., sort=True)`). -/
def sortedKeysIndiv (rows : List CleanRow) : List (String × String) :=
  (dedupFirst (rows.filterMap keyOfRow)).insertionSort keyLe

/-- One aggregated row: `TotalPremium = sum(Premium)`,
`SaleCount = count(Premium)` over the group. -/
structure LBEntry where
  userId : String
  name : String
  totalPremium : Int
  saleCount : Nat
deriving DecidableEq, Repr

/-- Aggregate one group of the individual leaderboard. -/
def aggOfKey (rows : List CleanRow) (k : String × String) : LBEntry :=
  let grp := rows.filter fun c => keyOfRow c = some k
  ⟨k.1, k.2, (grp.map (·.premium)).sum, grp.length⟩

/-- `groupby(["User ID", "Name"]).agg(...).reset_index()`: one row per
distinct key, keys ascending. -/
def indivAgg (records : List RawRecord) (period : String) (now : Int) :
    List LBEntry :=
  (sortedKeysIndiv (filteredIndiv records period now)).map
    (aggOfKey (filteredIndiv records period now))

/-- `sort_values(col, ascending=False)`: a stable descending sort.
pandas `nargsort` reverses values and indices before the stable
ascending argsort and reverses the indexer after, so tied rows keep
their original relative order. -/
def sortDescBy {α : Type} (key : α → Int) (l : List α) : List α :=
  l.insertionSort fun a b => key b ≤ key a

/-- The individual leaderboard after the descending premium sort, before
`head(20)` and rank assignment. -/
def indivSorted (records : List RawRecord) (period : String) (now : Int) :
    List LBEntry :=
  sortDescBy (·.totalPremium) (indivAgg records period now)

/-- A leaderboard row with its 1-based rank (the DataFrame index after
`reset_index(drop=True); index += 1`). -/
structure RankedLBEntry where
  rank : Nat
  userId : String
  name : String
  totalPremium : Int
  saleCount : Nat
deriving DecidableEq, Repr

/-- Attach ranks 1, 2, ... positionally. -/
def withRanksLB (l : List LBEntry) : List RankedLBEntry :=
  (l.enumFrom 1).map fun p => ⟨p.1, p.2.userId, p.2.name, p.2.totalPremium, p.2.saleCount⟩

/-- All five required columns of the individual leaderboard are present
in the DataFrame. -/
def requiredColsIndiv (records : List RawRecord) : Bool :=
  colPresent (·.hasDate) records && colPresent (·.hasUserId) records &&
  colPresent (·.hasName) records && colPresent (·.hasPremium) records &&
  colPresent (·.hasTeam) records

/-- `process_leaderboard_data(records, period)` of `src/main.py`
(lines 87-131), with `now` explicit.  Empty input, a missing required
column, or an empty filtered set yield an empty leaderboard; otherwise
groups are aggregated, sorted descending by total premium, truncated by
`head(20)` and ranked from 1. -/
def process_leaderboard_data (records : List RawRecord) (period : String)
    (now : Int) : List RankedLBEntry :=
  if records = [] then []
  else if ¬ requiredColsIndiv records then []
  else if filteredIndiv records period now = [] then []
  else withRanksLB ((indivSorted records period now).take 20)

/-! ## Team leaderboard: `process_team_leaderboard_data` -/

/-- A row surviving coercions, `dropna(subset=["Date", "Premium",
"Team"])` of `process_team_leaderboard_data`. -/
structure TeamCleanRow where
  date : Int
  premium : Int
  team : String
deriving DecidableEq, Repr

/-- Coercion + `dropna` of the team function (lines 160-162). -/
def cleanTeam (records : List RawRecord) : List TeamCleanRow :=
  records.filterMap fun r =>
    match r.date.toOption, r.premium.toOption, r.team with
    | some d, some p, .val t => some ⟨d, p, t⟩
    | _, _, _ => none

/-- `df[df["Team"] != ""]` then the period filter. -/
def filteredTeam (records : List RawRecord) (period : String) (now : Int) :
    List TeamCleanRow :=
  let base := (cleanTeam records).filter fun c => c.team ≠ ""
  match startDateOf period now with
  | some s => base.filter fun c => s ≤ c.date
  | none => base

/-- Python string ordering used by `groupby("Team", sort=True)`. -/
def strLe (a b : String) : Prop := strLtB b a = false

instance : DecidableRel strLe := fun a b => by
  unfold strLe; infer_instance

/-- The distinct team names, ascending. -/
def sortedKeysTeam (rows : List TeamCleanRow) : List String :=
  (dedupFirst (rows.map (·.team))).insertionSort strLe

/-- One aggregated team row. -/
structure TeamEntry where
  team : String
  totalPremium : Int
  saleCount : Nat
deriving DecidableEq, Repr

/-- Aggregate one team group. -/
def aggOfTeam (rows : List TeamCleanRow) (t : String) : TeamEntry :=
  let grp := rows.filter fun c => c.team = t
  ⟨t, (grp.map (·.premium)).sum, grp.length⟩

/-- `groupby("Team").agg(...).reset_index()`. -/
def teamAgg (records : List RawRecord) (period : String) (now : Int) :
    List TeamEntry :=
  (sortedKeysTeam (filteredTeam records period now)).map
    (aggOfTeam (filteredTeam records period now))

/-- The team leaderboard after the descending sort (never truncated). -/
def teamSorted (records : List RawRecord) (period : String) (now : Int) :
    List TeamEntry :=
  sortDescBy (·.totalPremium) (teamAgg records period now)

/-- A ranked team row. -/
structure RankedTeamEntry where
  rank : Nat
  team : String
  totalPremium : Int
  saleCount : Nat
deriving DecidableEq, Repr

/-- Attach ranks 1, 2, ... positionally. -/
def withRanksTeam (l : List TeamEntry) : List RankedTeamEntry :=
  (l.enumFrom 1).map fun p => ⟨p.1, p.2.team, p.2.totalPremium, p.2.saleCount⟩

/-- `process_team_leaderboard_data(records, period)` of `src/main.py`
(lines 148-190), with `now` explicit.  The required-column loop only
prints and does not return, so a missing `Date`, `Premium` or `Team`
column makes the subsequent column access / `dropna(subset=...)` raise
`KeyError`, modelled as `Except.error`.  The order of failures follows
the statement order: `df["Date"]` is read first, then `df["Premium"]`,
then `dropna` names `Team`. -/
def process_team_leaderboard_data (records : List RawRecord) (period : String)
    (now : Int) : Except String (List RankedTeamEntry) :=
  if records = [] then .ok []
  else if ¬ colPresent (·.hasDate) records then .error ("KeyError: Date")
  else if ¬ colPresent (·.hasPremium) records then .error ("KeyError: Premium")
  else if ¬ colPresent (·.hasTeam) records then .error ("KeyError: Team")
  else if filteredTeam records period now = [] then .ok []
  else .ok (withRanksTeam (teamSorted records period now))

/-! ## Team directory cache: `fetch_teams_and_roles_from_sheet_async` -/

/-- The value stored per team: `{"role": row[1], "channel": row[2]}`. -/
structure TeamInfo where
  role : String
  channel : String
deriving DecidableEq, Repr

/-- The cache is a Python dict: an association list in key-insertion
order, keys unique. -/
abbrev Cache := List (String × TeamInfo)

/-- Python dict insertion: an existing key keeps its position and gets
the new value; a new key is appended. -/
def dictInsert (k : String) (v : TeamInfo) : Cache → Cache
  | [] => [(k, v)]
  | (k', v') :: rest =>
      if k' = k then (k', v) :: rest else (k', v') :: dictInsert k v rest

/-- The guard of the dict comprehension:
`row and len(row) > 2 and row[0] and row[1] and row[2]`. -/
def rowOk (row : List String) : Bool :=
  (row ≠ []) && (row.length > 2) &&
  (row.getD 0 "" ≠ "") && (row.getD 1 "" ≠ "") && (row.getD 2 "" ≠ "")

/-- The dict comprehension over `all_values[1:]` (the header row is
skipped). -/
def buildCache (allValues : List (List String)) : Cache :=
  ((allValues.drop 1).filter rowOk).foldl
    (fun acc row => dictInsert (row.getD 0 "") ⟨row.getD 1 "", row.getD 2 ""⟩ acc) []

/-- `fetch_teams_and_roles_from_sheet_async` (lines 60-79) as a state
transition on the cache: the fetch result is either the raw
`get_all_values` rows or an exception.  A successful fetch replaces the
cache with the freshly built dict when it is non-empty and clears it
otherwise; the `except` branch also clears it.  The previous cache is
never consulted. -/
def refreshCache (_prev : Cache) (result : Except String (List (List String))) :
    Cache :=
  match result with
  | .error _ => []
  | .ok vals =>
      let newCache := buildCache vals
      if newCache = [] then [] else newCache

/-- `get_teams_from_cache` returns the dict keys. -/
def cacheNames (c : Cache) : List String := c.map (·.1)

/-! ## GrowthAnalyzer (spec-modelled) -/

/-- A normalized sale event as the spec's §3 data model describes it. -/
structure SaleEvent where
  timestamp : Int
  identityId : String
  displayName : String
  premium : Int
deriving DecidableEq, Repr

/-- Sum of premium for one identity over this week
(`[mondayOfThisWeek, +infinity)`). -/
def sumThisWeek (events : List SaleEvent) (now : Int) (i : String) : Int :=
  ((events.filter fun e => e.identityId = i ∧ weekStart now ≤ e.timestamp).map
    (·.premium)).sum

/-- Sum of premium for one identity over last week
(`[mondayOfLastWeek, mondayOfThisWeek)`). -/
def sumLastWeek (events : List SaleEvent) (now : Int) (i : String) : Int :=
  ((events.filter fun e =>
      e.identityId = i ∧ weekStart now - 7 * minutesPerDay ≤ e.timestamp ∧
        e.timestamp < weekStart now).map (·.premium)).sum

/-- The display name of the most recent event of an identity. -/
def latestNameOf (events : List SaleEvent) (i : String) : String :=
  match events.filter fun e => e.identityId = i with
  | [] => i
  | e :: rest =>
      (rest.foldl (fun best x => if best.timestamp < x.timestamp then x else best)
        e).displayName

/-- The spec's `GrowthResult`. -/
structure GrowthResult where
  identityId : String
  displayName : String
  thisWindowTotal : Int
  lastWindowTotal : Int
  growthPercent : ℚ
deriving DecidableEq, Repr

/-- Modelled from the spec: the inner join of §4.4's GrowthAnalyzer,
which is described in the spec but has no implementation in
`src/main.py`.  One `GrowthResult` per identity with nonzero activity in
both adjacent weekly windows, with
`growthPercent = (thisWindowTotal - lastWindowTotal) / lastWindowTotal * 100`. -/
def joinedGrowth (events : List SaleEvent) (now : Int) : List GrowthResult :=
  (dedupFirst (events.map (·.identityId))).filterMap fun i =>
    let t := sumThisWeek events now i
    let l := sumLastWeek events now i
    if t ≠ 0 ∧ l ≠ 0 then
      some ⟨i, latestNameOf events i, t, l, ((t - l : Int) : ℚ) * 100 / (l : ℚ)⟩
    else none

/-- Keep the candidate with the larger growth percent, the earlier one
on ties. -/
def pickBest (best g : GrowthResult) : GrowthResult :=
  if best.growthPercent < g.growthPercent then g else best

/-- Modelled from the spec: `findRisingStar(events, now)` of §4.4, absent
from `src/main.py`.  Among joined identities with positive growth, the
maximum growth percent wins, ties going to the first encountered. -/
def findRisingStar (events : List SaleEvent) (now : Int) : Option GrowthResult :=
  match (joinedGrowth events now).filter (fun g => 0 < g.growthPercent) with
  | [] => none
  | x :: xs => some (xs.foldl pickBest x)

/-! ## Concrete inputs used in witnesses and counterexamples -/

/-- A valid record for user "a", name "A", premium 100, team "Red". -/
def rA : RawRecord := ⟨.val 100, .val ("a"), .val ("A"), .val 100, .val ("Red")⟩

/-- A valid record for user "b", name "B", premium 100, team "Blue". -/
def rB : RawRecord := ⟨.val 200, .val ("b"), .val ("B"), .val 100, .val ("Blue")⟩

/-- A record whose row dict has no `Team` key but is otherwise valid. -/
def recNoTeam : RawRecord := ⟨.val 100, .val ("a"), .val ("Al"), .val 100, .absent⟩

/-- A fetched team sheet: a header row and one data row. -/
def sheetHeaderPlusOne : List (List String) := [["h", "h", "h"], ["A", "1", "2"]]

/-- A valid record for a given user id and premium (name "N", team "T"). -/
def mkU (u : String) (p : Int) : RawRecord :=
  ⟨.val 100, .val u, .val ("N"), .val p, .val ("T")⟩

/-- Eleven valid records for eleven distinct users. -/
def recs11 : List RawRecord :=
  [mkU ("a") 1, mkU ("b") 2, mkU ("c") 3, mkU ("d") 4, mkU ("e") 5, mkU ("f") 6,
   mkU ("g") 7, mkU ("h") 8, mkU ("i") 9, mkU ("j") 10, mkU ("k") 11]

/-! ## Helper lemmas -/

theorem dictInsert_mem {k : String} {v : TeamInfo} {c : Cache}
    {p : String × TeamInfo} (hp : p ∈ dictInsert k v c) : p = (k, v) ∨ p ∈ c := by
  induction c with
  | nil => simpa [dictInsert] using hp
  | cons hd tl ih =>
    obtain ⟨k', v'⟩ := hd
    rw [dictInsert] at hp
    split at hp
    · rcases List.mem_cons.mp hp with h | h
      · exact Or.inl (by simp_all)
      · exact Or.inr (List.mem_cons_of_mem _ h)
    · rcases List.mem_cons.mp hp with h | h
      · exact Or.inr (h ▸ List.mem_cons_self _ _)
      · rcases ih h with h' | h'
        · exact Or.inl h'
        · exact Or.inr (List.mem_cons_of_mem _ h')

theorem mem_foldl_dictInsert (rows : List (List String)) (acc : Cache)
    (p : String × TeamInfo)
    (hp : p ∈ rows.foldl
      (fun a row => dictInsert (row.getD 0 "") ⟨row.getD 1 "", row.getD 2 ""⟩ a) acc) :
    p ∈ acc ∨ ∃ row ∈ rows, p = (row.getD 0 "", ⟨row.getD 1 "", row.getD 2 ""⟩) := by
  induction rows generalizing acc with
  | nil => exact Or.inl hp
  | cons r rs ih =>
    rw [List.foldl_cons] at hp
    rcases ih _ hp with h | ⟨row, hrow, hpeq⟩
    · rcases dictInsert_mem h with h' | h'
      · exact Or.inr ⟨r, List.mem_cons_self _ _, h'⟩
      · exact Or.inl h'
    · exact Or.inr ⟨row, List.mem_cons_of_mem _ hrow, hpeq⟩

theorem length_withRanksLB (l : List LBEntry) : (withRanksLB l).length = l.length := by
  simp [withRanksLB]

theorem length_withRanksTeam (l : List TeamEntry) :
    (withRanksTeam l).length = l.length := by
  simp [withRanksTeam]

theorem length_sortDescBy {α : Type} (key : α → Int) (l : List α) :
    (sortDescBy key l).length = l.length := by
  simp [sortDescBy, List.length_insertionSort]

theorem filteredTeam_nil (period : String) (now : Int) :
    filteredTeam [] period now = [] := by
  cases h : startDateOf period now <;> simp [filteredTeam, h, cleanTeam]

theorem teamAgg_of_filteredTeam_nil {records : List RawRecord} {period : String}
    {now : Int} (h : filteredTeam records period now = []) :
    teamAgg records period now = [] := by
  rw [teamAgg, h]; rfl

theorem filter_orderedInsert_key {α : Type} (key : α → Int) (t : Int) (a : α)
    (l : List α) :
    ((l.orderedInsert (fun x y => key y ≤ key x) a).filter
        fun b => decide (key b = t)) =
      if key a = t then a :: l.filter (fun b => decide (key b = t))
      else l.filter (fun b => decide (key b = t)) := by
  induction l with
  | nil => by_cases h : key a = t <;> simp [List.orderedInsert, h]
  | cons b l ih =>
    rw [List.orderedInsert]
    split
    · by_cases h : key a = t <;> simp [List.filter_cons, h]
    · rename_i hab
      have hb : key a < key b := not_le.mp hab
      rw [List.filter_cons, ih]
      by_cases h : key a = t
      · have hbt : ¬ key b = t := fun hc => absurd ((h.trans hc.symm) ▸ hb) (lt_irrefl (key b))
        simp [h, hbt, List.filter_cons]
      · by_cases hbt : key b = t <;> simp [h, hbt, List.filter_cons]

theorem filter_insertionSort_key {α : Type} (key : α → Int) (t : Int)
    (l : List α) :
    ((l.insertionSort fun x y => key y ≤ key x).filter
        fun b => decide (key b = t)) =
      l.filter (fun b => decide (key b = t)) := by
  induction l with
  | nil => rfl
  | cons a l ih =>
    rw [List.insertionSort, filter_orderedInsert_key, List.filter_cons]
    by_cases h : key a = t <;> simp [h, ih]

theorem sortDescBy_filter {α : Type} (key : α → Int) (t : Int) (l : List α) :
    (sortDescBy key l).filter (fun b => decide (key b = t)) =
      l.filter (fun b => decide (key b = t)) := by
  rw [sortDescBy, filter_insertionSort_key]

/-! ## Claim C1 -/

/-- C1: the claim says that with a required column entirely missing both
aggregations return an empty result rather than failing.  The code does
so only for `process_leaderboard_data`; `process_team_leaderboard_data`
logs the missing column but, lacking the early `return`, goes on to
access the column and raises `KeyError`.  At a record set whose rows
have no `Team` key, the individual leaderboard is empty while the team
leaderboard raises. -/
theorem missing_column_individual_empty_team_raises :
    process_leaderboard_data [recNoTeam] "full" 0 = [] ∧
    process_team_leaderboard_data [recNoTeam] "full" 0 = .error ("KeyError: Team") :=
  ⟨rfl, rfl⟩

/-! ## Claim C2 -/

/-- C2 counterexample: the claim caps the individual leaderboard at
N = 10, but the code truncates with `head(20)`: eleven distinct users
all inside the window produce an eleven-entry leaderboard. -/
theorem eleven_entries_exceed_ten :
    ¬ (process_leaderboard_data recs11 "full" 0).length ≤ 10 := by decide

/-- C2 amended: the individual leaderboard is truncated to at most
N = 20 entries (`head(20)`), while the team leaderboard is never
truncated — a successful team aggregation has exactly one entry per
aggregated team group. -/
theorem leaderboard_truncation (records : List RawRecord) (period : String)
    (now : Int) :
    (process_leaderboard_data records period now).length ≤ 20 ∧
    ∀ res, process_team_leaderboard_data records period now = Except.ok res →
      res.length = (teamAgg records period now).length := by
  constructor
  · rw [process_leaderboard_data]
    split
    · simp
    · split
      · simp
      · split
        · simp
        · rw [length_withRanksLB, List.length_take]
          exact min_le_left _ _
  · intro res hres
    rw [process_team_leaderboard_data] at hres
    split at hres
    · rename_i hrec
      injection hres with hres
      subst hres hrec
      simp [teamAgg_of_filteredTeam_nil (filteredTeam_nil period now)]
    · split at hres
      · exact absurd hres (by simp)
      · split at hres
        · exact absurd hres (by simp)
        · split at hres
          · exact absurd hres (by simp)
          · split at hres
            · rename_i hfil
              injection hres with hres
              subst hres
              simp [teamAgg_of_filteredTeam_nil hfil]
            · injection hres with hres
              subst hres
              rw [length_withRanksTeam, teamSorted, length_sortDescBy]

/-- Witness for C2 amended: two valid records in two teams give a
two-entry team leaderboard, equal in length to the two aggregated
groups. -/
theorem leaderboard_truncation_witness :
    (process_leaderboard_data [rA, rB] "full" 0).length ≤ 20 ∧
    ([⟨1, "Blue", 100, 1⟩, ⟨2, "Red", 100, 1⟩] : List RankedTeamEntry).length =
      (teamAgg [rA, rB] "full" 0).length :=
  ⟨(leaderboard_truncation [rA, rB] "full" 0).1,
   (leaderboard_truncation [rA, rB] "full" 0).2 _ rfl⟩

/-! ## Claim C3 -/

/-- C3 counterexample: the claim says a fetch error leaves the previous
cache snapshot intact, but the `except` branch of
`fetch_teams_and_roles_from_sheet_async` assigns the empty dict: from a
non-empty prior cache, a raising fetch empties it. -/
theorem refresh_error_clears_nonempty_cache :
    refreshCache [("A", ⟨"1", "2"⟩)] (.error ("boom")) = [] ∧
    ([("A", (⟨"1", "2"⟩ : TeamInfo))] : Cache) ≠ [] :=
  ⟨rfl, by decide⟩

/-- C3 amended: a refresh whose fetch raises clears the cache to the
empty mapping, exactly as an explicitly empty fetch result does; the
previous snapshot is never retained after a failed refresh. -/
theorem refresh_error_always_clears (prev : Cache) (e : String) :
    refreshCache prev (.error e) = [] :=
  rfl

/-! ## Claim C4 -/

/-- C4: a refresh whose fetch succeeds but yields zero usable rows
(the built dict is empty) sets the cache to the empty mapping — and so
`get_teams_from_cache` yields no names — regardless of the prior cache
contents. -/
theorem refresh_zero_rows_clears (prev : Cache) (vals : List (List String))
    (h : buildCache vals = []) :
    refreshCache prev (.ok vals) = [] ∧
    cacheNames (refreshCache prev (.ok vals)) = [] := by
  have hr : refreshCache prev (.ok vals) = [] := by
    simp [refreshCache, h]
  exact ⟨hr, by rw [hr]; rfl⟩

/-- Witness for C4: a sheet holding only its header row builds an empty
dict and empties a previously non-empty cache. -/
theorem refresh_zero_rows_clears_witness :
    refreshCache [("A", ⟨"1", "2"⟩)] (.ok [["h", "h", "h"]]) = [] ∧
    cacheNames (refreshCache [("A", ⟨"1", "2"⟩)] (.ok [["h", "h", "h"]])) = [] :=
  refresh_zero_rows_clears [("A", ⟨"1", "2"⟩)] [["h", "h", "h"]] rfl

/-! ## Claim C5 -/

/-- C5 counterexample: the claim says a row whose `Team` column is
missing entirely is normalized with the sentinel team "N/A" rather than
the aggregation returning an empty result; but `Team` is in the
individual required-column list, so the aggregation returns the empty
leaderboard even though the single record is otherwise fully valid. -/
theorem absent_team_column_returns_empty :
    process_leaderboard_data [⟨.val 5, .val ("u"), .val ("U"), .val 7, .absent⟩]
      "week" 7200 = [] ∧
    (⟨.val 5, .val ("u"), .val ("U"), .val 7, .absent⟩ : RawRecord).premium = .val 7 :=
  ⟨rfl, rfl⟩

/-- C5 amended: no sentinel team is ever assigned; when the `Team`
column is missing entirely (every record lacks the key), the individual
aggregation treats it as a missing required column and returns the empty
leaderboard. -/
theorem absent_team_column_empty (records : List RawRecord) (period : String)
    (now : Int) (h : ∀ r ∈ records, r.team = Cell.absent) :
    process_leaderboard_data records period now = [] := by
  rcases records with _ | ⟨r, rs⟩
  · rfl
  · have hteam : colPresent (·.hasTeam) (r :: rs) = false := by
      simp only [colPresent, List.any_eq_false]
      intro a ha
      simp [RawRecord.hasTeam, h a ha]
    have hreq : requiredColsIndiv (r :: rs) = false := by
      simp [requiredColsIndiv, hteam]
    simp [process_leaderboard_data, hreq]

/-- Witness for C5 amended: two records, both without a `Team` key. -/
theorem absent_team_column_empty_witness :
    process_leaderboard_data [recNoTeam, ⟨.val 9, .val ("b"), .val ("B"), .val 3, .absent⟩]
      "month" 50000 = [] :=
  absent_team_column_empty _ _ _ (by decide)

/-! ## Claim C10 -/

/-- C10: after any completed refresh, every cache entry has a non-empty
team name, role and channel: the dict comprehension skips the header row
and any row that is empty, shorter than three cells, or empty in one of
its first three cells. -/
theorem cache_entries_nonempty (prev : Cache)
    (res : Except String (List (List String))) (k : String) (v : TeamInfo)
    (h : (k, v) ∈ refreshCache prev res) :
    k ≠ "" ∧ v.role ≠ "" ∧ v.channel ≠ "" := by
  rcases res with e | vals
  · simp [refreshCache] at h
  · rw [refreshCache] at h
    split at h
    · simp at h
    · rw [buildCache] at h
      rcases mem_foldl_dictInsert _ _ _ h with h' | ⟨row, hrow, hpeq⟩
      · simp at h'
      · have hok : rowOk row = true := (List.mem_filter.mp hrow).2
        simp only [rowOk, Bool.and_eq_true, decide_eq_true_eq] at hok
        obtain ⟨⟨⟨⟨-, -⟩, h0⟩, h1⟩, h2⟩ := hok
        obtain ⟨hk, hv⟩ := Prod.mk.injEq .. ▸ hpeq
        refine ⟨hk ▸ h0, ?_, ?_⟩
        · rw [hv]; exact h1
        · rw [hv]; exact h2

/-- Witness for C10: a concrete refresh with a header row and one good
row yields the entry ("A", role "1", channel "2"), which is non-empty in
all three components. -/
theorem cache_entries_nonempty_witness :
    ("A", (⟨"1", "2"⟩ : TeamInfo)) ∈ refreshCache [] (.ok sheetHeaderPlusOne) ∧
    ("A" ≠ "" ∧ ("1" : String) ≠ "" ∧ ("2" : String) ≠ "") :=
  ⟨by decide, cache_entries_nonempty [] (.ok sheetHeaderPlusOne) "A" ⟨"1", "2"⟩ (by decide)⟩

/-! ## Claim C6 -/

/-- C6: the descending premium sort is stable, so tied groups keep their
original grouping order in both aggregations: for every premium total,
the tied entries appear in the sorted leaderboard in exactly the order
the groupby produced them. -/
theorem tie_order_preserved (records : List RawRecord)
    (period : String) (now : Int) (t : Int) :
    (indivSorted records period now).filter
        (fun e => decide (e.totalPremium = t)) =
      (indivAgg records period now).filter
        (fun e => decide (e.totalPremium = t)) ∧
    (teamSorted records period now).filter
        (fun e => decide (e.totalPremium = t)) =
      (teamAgg records period now).filter
        (fun e => decide (e.totalPremium = t)) := by
  constructor
  · rw [indivSorted]
    exact sortDescBy_filter (fun e : LBEntry => e.totalPremium) t _
  · rw [teamSorted]
    exact sortDescBy_filter (fun e : TeamEntry => e.totalPremium) t _

/-! ## Claim C7 -/

/-- C7: an event whose timestamp equals the computed lower boundary of
the selected window passes the `Date >= start_date` filter — the lower
bound is inclusive — in both the individual and the team pipeline
(provided the row survives the preceding coercion/dropna steps). -/
theorem window_boundary_inclusive (records : List RawRecord) (r : RawRecord)
    (period : String) (now s p : Int) (t : String)
    (hmem : r ∈ records) (hs : startDateOf period now = some s)
    (hd : r.date = Cell.val s) (hp : r.premium = Cell.val p) :
    (r.userId.toStr ≠ "" →
      (⟨s, r.userId.toStr, r.name, p⟩ : CleanRow) ∈ filteredIndiv records period now) ∧
    (r.team = Cell.val t → t ≠ "" →
      (⟨s, p, t⟩ : TeamCleanRow) ∈ filteredTeam records period now) := by
  constructor
  · intro hu
    have hclean : (⟨s, r.userId.toStr, r.name, p⟩ : CleanRow) ∈ cleanIndiv records := by
      rw [cleanIndiv]
      exact List.mem_filterMap.mpr ⟨r, hmem, by simp [hd, hp, Cell.toOption, hu]⟩
    simp only [filteredIndiv, hs]
    exact List.mem_filter.mpr ⟨hclean, by simp⟩
  · intro ht ht'
    have hclean : (⟨s, p, t⟩ : TeamCleanRow) ∈ cleanTeam records := by
      rw [cleanTeam]
      exact List.mem_filterMap.mpr ⟨r, hmem, by simp [hd, hp, ht, Cell.toOption]⟩
    simp only [filteredTeam, hs]
    exact List.mem_filter.mpr ⟨List.mem_filter.mpr ⟨hclean, by simp [ht']⟩, by simp⟩

/-- Witness for C7: with `now` mid-Monday 1970-01-05, the week window
lower bound is midnight of that Monday (minute 5760); a record dated
exactly 5760 appears in both filtered sets. -/
theorem window_boundary_inclusive_witness :
    (⟨.val 5760, .val ("u"), .val ("U"), .val 9, .val ("T")⟩ : RawRecord) ∈
        ([⟨.val 5760, .val ("u"), .val ("U"), .val 9, .val ("T")⟩] : List RawRecord) ∧
      startDateOf ("week") 6000 = some 5760 ∧
    (⟨5760, "u", Cell.val ("U"), 9⟩ : CleanRow) ∈
        filteredIndiv [⟨.val 5760, .val ("u"), .val ("U"), .val 9, .val ("T")⟩] "week" 6000 ∧
    (⟨5760, 9, "T"⟩ : TeamCleanRow) ∈
        filteredTeam [⟨.val 5760, .val ("u"), .val ("U"), .val 9, .val ("T")⟩] "week" 6000 := by
  refine ⟨List.mem_singleton_self _, by decide, ?_, ?_⟩
  · exact (window_boundary_inclusive _ _ ("week") 6000 5760 9 "T"
      (List.mem_singleton_self _) (by decide) rfl rfl).1 (by decide)
  · exact (window_boundary_inclusive _ _ ("week") 6000 5760 9 "T"
      (List.mem_singleton_self _) (by decide) rfl rfl).2 rfl (by decide)

theorem sortDescBy_pairwise {α : Type} (key : α → Int) (l : List α) :
    (sortDescBy key l).Pairwise (fun a b => key b ≤ key a) := by
  haveI : IsTotal α (fun a b => key b ≤ key a) := ⟨fun a b => Int.le_total _ _⟩
  haveI : IsTrans α (fun a b => key b ≤ key a) := ⟨fun _ _ _ h1 h2 => le_trans h2 h1⟩
  exact List.sorted_insertionSort _ l

theorem map_total_withRanksLB (l : List LBEntry) :
    (withRanksLB l).map (·.totalPremium) = l.map (·.totalPremium) := by
  rw [withRanksLB, List.map_map]
  calc (l.enumFrom 1).map ((fun e : RankedLBEntry => e.totalPremium) ∘
        fun p => (⟨p.1, p.2.userId, p.2.name, p.2.totalPremium, p.2.saleCount⟩ : RankedLBEntry))
      = ((l.enumFrom 1).map Prod.snd).map (·.totalPremium) := by rw [List.map_map]; rfl
    _ = l.map (·.totalPremium) := by rw [List.enumFrom_map_snd]

theorem map_rank_withRanksLB (l : List LBEntry) :
    (withRanksLB l).map (·.rank) = List.range' 1 l.length := by
  rw [withRanksLB, List.map_map]
  calc (l.enumFrom 1).map ((fun e : RankedLBEntry => e.rank) ∘
        fun p => (⟨p.1, p.2.userId, p.2.name, p.2.totalPremium, p.2.saleCount⟩ : RankedLBEntry))
      = (l.enumFrom 1).map Prod.fst := rfl
    _ = List.range' 1 l.length := List.enumFrom_map_fst 1 l

/-! ## Claim C8 -/

/-- C8: for every record set and period, the individual leaderboard is
sorted non-increasing by total premium and its ranks are the contiguous
integers 1, 2, ..., length. -/
theorem individual_sorted_and_ranked (records : List RawRecord)
    (period : String) (now : Int) :
    ((process_leaderboard_data records period now).map
        (·.totalPremium)).Pairwise (fun a b => b ≤ a) ∧
    (process_leaderboard_data records period now).map (·.rank) =
      List.range' 1 (process_leaderboard_data records period now).length := by
  rw [process_leaderboard_data]
  split
  · simp
  · split
    · simp
    · split
      · simp
      · constructor
        · rw [map_total_withRanksLB]
          rw [List.pairwise_map]
          refine List.Pairwise.sublist (List.take_sublist 20 _) ?_
          exact sortDescBy_pairwise (·.totalPremium) (indivAgg records period now)
        · rw [map_rank_withRanksLB, length_withRanksLB]

theorem foldl_pickBest_mem (x : GrowthResult) (xs : List GrowthResult) :
    xs.foldl pickBest x ∈ x :: xs := by
  induction xs generalizing x with
  | nil => simp
  | cons y ys ih =>
    rw [List.foldl_cons]
    have hxy : pickBest x y = x ∨ pickBest x y = y := by
      rw [pickBest]; split
      · exact Or.inr rfl
      · exact Or.inl rfl
    rcases List.mem_cons.mp (ih (pickBest x y)) with h | h
    · rcases hxy with h' | h'
      · rw [h, h']; exact List.mem_cons_self _ _
      · rw [h, h']; exact List.mem_cons_of_mem _ (List.mem_cons_self _ _)
    · exact List.mem_cons_of_mem _ (List.mem_cons_of_mem _ h)

theorem foldl_pickBest_ge (x : GrowthResult) (xs : List GrowthResult) :
    ∀ y ∈ x :: xs, y.growthPercent ≤ (xs.foldl pickBest x).growthPercent := by
  induction xs generalizing x with
  | nil =>
    intro y hy
    rw [List.mem_singleton.mp hy]
    exact le_refl _
  | cons z zs ih =>
    intro y hy
    rw [List.foldl_cons]
    have hx : x.growthPercent ≤ (pickBest x z).growthPercent := by
      rw [pickBest]; split
      · exact le_of_lt ‹_›
      · exact le_refl _
    have hz : z.growthPercent ≤ (pickBest x z).growthPercent := by
      rw [pickBest]; split
      · exact le_refl _
      · exact not_lt.mp ‹_›
    rcases List.mem_cons.mp hy with heq | hy'
    · rw [heq]
      exact hx.trans (ih (pickBest x z) _ (List.mem_cons_self _ _))
    · rcases List.mem_cons.mp hy' with heq | hy''
      · rw [heq]
        exact hz.trans (ih (pickBest x z) _ (List.mem_cons_self _ _))
      · exact ih (pickBest x z) y (List.mem_cons_of_mem _ hy'')

/-! ## Claim C9 -/

/-- C9 (spec-modelled): `findRisingStar` returns `none` when no identity
has nonzero premium in both adjacent weekly windows, returns `none` when
every joined identity has non-positive growth percent, and otherwise
returns a joined identity of positive growth whose growth percent is
maximal among all joined identities. -/
theorem findRisingStar_correct (events : List SaleEvent) (now : Int) :
    ((∀ i : String, sumThisWeek events now i = 0 ∨ sumLastWeek events now i = 0) →
      findRisingStar events now = none) ∧
    ((∀ g ∈ joinedGrowth events now, g.growthPercent ≤ 0) →
      findRisingStar events now = none) ∧
    ((∃ g ∈ joinedGrowth events now, 0 < g.growthPercent) →
      (findRisingStar events now).isSome = true) ∧
    (∀ r, findRisingStar events now = some r →
      0 < r.growthPercent ∧ r ∈ joinedGrowth events now ∧
        ∀ g ∈ joinedGrowth events now, g.growthPercent ≤ r.growthPercent) := by
  refine ⟨?_, ?_, ?_, ?_⟩
  · intro h
    have hj : joinedGrowth events now = [] := by
      rw [joinedGrowth]
      rw [List.filterMap_eq_nil_iff]
      intro i _
      rcases h i with h0 | h0 <;> simp [h0]
    rw [findRisingStar, hj]
    rfl
  · intro h
    have hf : (joinedGrowth events now).filter (fun g => 0 < g.growthPercent) = [] := by
      rw [List.filter_eq_nil_iff]
      intro g hg
      simpa using not_lt.mpr (h g hg)
    rw [findRisingStar, hf]
  · rintro ⟨g, hg, hpos⟩
    have hf : g ∈ (joinedGrowth events now).filter (fun x => 0 < x.growthPercent) :=
      List.mem_filter.mpr ⟨hg, by simpa using hpos⟩
    cases hF : (joinedGrowth events now).filter (fun x => 0 < x.growthPercent) with
    | nil => rw [hF] at hf; simp at hf
    | cons x xs => rw [findRisingStar, hF]; rfl
  · intro r hr
    rw [findRisingStar] at hr
    cases hF : (joinedGrowth events now).filter (fun g => 0 < g.growthPercent) with
    | nil => rw [hF] at hr; exact absurd hr (by simp)
    | cons x xs =>
      rw [hF] at hr
      have hreq : r = xs.foldl pickBest x := by
        injection hr with h'; exact h'.symm
      have hrmem : r ∈ (joinedGrowth events now).filter (fun g => 0 < g.growthPercent) := by
        rw [hF, hreq]; exact foldl_pickBest_mem x xs
      have hrj := List.mem_filter.mp hrmem
      refine ⟨by simpa using hrj.2, hrj.1, ?_⟩
      intro g hg
      by_cases hgpos : 0 < g.growthPercent
      · have hgf : g ∈ (joinedGrowth events now).filter (fun g => 0 < g.growthPercent) :=
          List.mem_filter.mpr ⟨hg, by simpa using hgpos⟩
        rw [hF] at hgf
        exact hreq ▸ foldl_pickBest_ge x xs g hgf
      · exact (not_lt.mp hgpos).trans (le_of_lt (by simpa using hrj.2))

/-- Witness for C9: with no events, no identity is active in either
window, and the analyzer returns `none`. -/
theorem findRisingStar_correct_witness : findRisingStar [] 0 = none :=
  (findRisingStar_correct [] 0).1 (fun _ => Or.inl rfl)

end DGBot
